import Mathlib

/-!
Verification of the document-processing core of the legal document analysis
repository (`utils.py`, class `DocumentProcessor`), against its
natural-language specification.

The Python code is shallowly embedded: Python `str` values are modelled as
Lean `String` (a structure over `List Char`), Python string primitives that
the code relies on (`lower`, `strip`, `replace`, `startswith`, `endswith`,
substring membership `in`, separator join) are given structurally recursive
models over `List Char` so that all definitions are executable by the
kernel; Python `dict` values are modelled as association lists together
with an insertion function that mirrors CPython semantics (an existing key
is overwritten in place, a new key is appended); Python `bytes` is
`List Nat`; raising an exception is modelled with `Except`.
-/

namespace DocProc

/-! ## Python string primitives, modelled over lists of characters -/

/-- Prefix test on character lists: `isPre pat s` iff `s` starts with `pat`.
Models Python `str.startswith` applied to the underlying character
sequences. -/
def isPre : List Char → List Char → Bool
  | [], _ => true
  | _ :: _, [] => false
  | a :: as, b :: bs => a == b && isPre as bs

/-- Substring occurrence: `occurs pat s` iff `pat` occurs contiguously in
`s`.  Models the Python operator `pat in s` on strings (and `re.search`
for the literal patterns used by the code). -/
def occurs : List Char → List Char → Bool
  | pat, [] => isPre pat []
  | pat, c :: t => isPre pat (c :: t) || occurs pat t

/-- Join a list of character lists with a single separator character.
Models Python `sep.join(chunks)` for the one-character separators used by
the code (`"\n"` and `" "`). -/
def joinSepL (sep : Char) : List (List Char) → List Char
  | [] => []
  | [c] => c
  | c :: cs => c ++ sep :: joinSepL sep cs

/-- Python `str.lower()` (ASCII case folding, which covers all strings the
code manipulates). -/
def lowerL (l : List Char) : List Char := l.map Char.toLower

/-- Python `str.strip()`: remove leading and trailing whitespace. -/
def pyStrip (s : String) : String :=
  (((s.toList.dropWhile Char.isWhitespace).reverse.dropWhile Char.isWhitespace).reverse).asString

/-- Python `s.endswith(suffixStr)`. -/
def endsWithL (l suffixL : List Char) : Bool := isPre suffixL.reverse l.reverse

/-! ## Python dict, modelled as an association list -/

/-- Key membership in a Python dict (`k in d`). -/
def hasKey (d : List (String × String)) (k : String) : Bool :=
  d.any (fun p => p.1 == k)

/-- CPython dict assignment `d[k] = v`: overwrite in place if the key is
present, append otherwise. -/
def dictInsert (d : List (String × String)) (k v : String) : List (String × String) :=
  if hasKey d k then d.map (fun p => if p.1 == k then (k, v) else p)
  else d ++ [(k, v)]

/-- Python `dict(items)`: fold the pair list into a dict, later values
overwriting earlier ones at the same key. -/
def pyDict (l : List (String × String)) : List (String × String) :=
  l.foldl (fun d kv => dictInsert d kv.1 kv.2) []

/-- The keys of a dict, in order. -/
def keysOf (d : List (String × String)) : List String := d.map Prod.fst

/-! ## Basic lemmas about the dict model -/

theorem hasKey_iff (d : List (String × String)) (k : String) :
    hasKey d k = true ↔ k ∈ keysOf d := by
  simp [hasKey, keysOf, List.any_eq_true, List.mem_map, beq_iff_eq]

theorem dictInsert_pos (d : List (String × String)) (k v : String)
    (h : hasKey d k = true) :
    dictInsert d k v = d.map (fun p => if p.1 == k then (k, v) else p) := by
  simp [dictInsert, h]

theorem dictInsert_neg (d : List (String × String)) (k v : String)
    (h : hasKey d k = false) : dictInsert d k v = d ++ [(k, v)] := by
  simp [dictInsert, h]

theorem fst_update (k v : String) (p : String × String) :
    (if p.1 == k then (k, v) else p).1 = p.1 := by
  by_cases h : p.1 = k
  · simp [h]
  · simp [beq_eq_false_iff_ne.mpr h]

theorem keysOf_map_update (d : List (String × String)) (k v : String) :
    keysOf (d.map (fun p => if p.1 == k then (k, v) else p)) = keysOf d := by
  induction d with
  | nil => rfl
  | cons p d ih =>
    simp only [keysOf, List.map_cons] at ih ⊢
    rw [fst_update k v p, ih]

theorem keysOf_dictInsert_subset (d : List (String × String)) (k v : String) :
    keysOf (dictInsert d k v) ⊆ keysOf d ++ [k] := by
  cases h : hasKey d k
  · rw [dictInsert_neg d k v h]
    simp [keysOf]
  · rw [dictInsert_pos d k v h, keysOf_map_update]
    exact List.subset_append_left _ _

theorem nodup_keysOf_dictInsert (d : List (String × String)) (k v : String)
    (hd : (keysOf d).Nodup) : (keysOf (dictInsert d k v)).Nodup := by
  cases h : hasKey d k
  · have hk : k ∉ keysOf d := fun hm => by
      rw [(hasKey_iff d k).mpr hm] at h
      exact Bool.true_eq_false.mp h
    rw [dictInsert_neg d k v h]
    simp only [keysOf, List.map_append, List.map_cons, List.map_nil]
    rw [List.nodup_append]
    refine ⟨hd, List.nodup_singleton k, ?_⟩
    intro x hx hx1
    simp only [List.mem_singleton] at hx1
    exact hk (hx1 ▸ hx)
  · rw [dictInsert_pos d k v h, keysOf_map_update]
    exact hd

theorem foldl_dictInsert_of_nodup (l acc : List (String × String))
    (h : (keysOf (acc ++ l)).Nodup) :
    l.foldl (fun d kv => dictInsert d kv.1 kv.2) acc = acc ++ l := by
  induction l generalizing acc with
  | nil => simp
  | cons kv l ih =>
    obtain ⟨k, v⟩ := kv
    have hk : k ∉ keysOf acc := by
      intro hm
      have hne : (keysOf (acc ++ (k, v) :: l)).Nodup := h
      rw [keysOf, List.map_append] at hne
      rcases List.nodup_append.mp hne with ⟨_, _, hdisj⟩
      exact hdisj hm (by simp)
    have hhk : hasKey acc k = false := by
      cases hh : hasKey acc k
      · rfl
      · exact absurd ((hasKey_iff acc k).mp hh) hk
    have step : dictInsert acc k v = acc ++ [(k, v)] := dictInsert_neg acc k v hhk
    simp only [List.foldl_cons, step]
    have hperm : (keysOf ((acc ++ [(k, v)]) ++ l)).Nodup := by
      simpa [keysOf] using h
    rw [ih (acc ++ [(k, v)]) hperm]
    simp

/-- Python `dict(items)` is the identity (as an association list) when the
keys of `items` are pairwise distinct. -/
theorem pyDict_of_nodup (l : List (String × String)) (h : (keysOf l).Nodup) :
    pyDict l = l := by
  have := foldl_dictInsert_of_nodup l [] (by simpa using h)
  simpa [pyDict] using this

/-! ## Export/Flatten (`_flatten_json`)

Nested JSON values are modelled by the mutual inductives `JVal` (a value:
either a non-dict leaf or a nested dict) and `JObj` (an ordered dict,
i.e. what a Python `dict` passed to `_flatten_json` is).  Leaves carry the
value as an opaque `String`; the flattening code never inspects leaf
values, so this loses no generality. -/

mutual

inductive JVal where
  | leaf : String → JVal
  | obj : JObj → JVal

inductive JObj where
  | nil : JObj
  | cons : String → JVal → JObj → JObj

end

/-- The composite key built by `_flatten_json`:
`f"{parent_key}{sep}{k}" if parent_key else k`. -/
def mkKey (parent sep k : String) : String :=
  if parent = "" then k else parent ++ sep ++ k

mutual

/-- The `items` list accumulated by one call of `_flatten_json` on value
`v` reached under composite key `key`: a leaf contributes itself, a nested
dict contributes `self._flatten_json(v, new_key, sep).items()`, i.e. its
own flattening with the inner `dict(...)` applied. -/
def flatItemsV (key sep : String) : JVal → List (String × String)
  | JVal.leaf s => [(key, s)]
  | JVal.obj fields => pyDict (flatItemsF fields key sep)

/-- The `items` list accumulated by `_flatten_json` over the entries of a
dict, given the current `parent_key` and `sep`. -/
def flatItemsF : JObj → String → String → List (String × String)
  | JObj.nil, _, _ => []
  | JObj.cons k v rest, parent, sep =>
      flatItemsV (mkKey parent sep k) sep v ++ flatItemsF rest parent sep

end

/-- Function `_flatten_json(nested_json, parent_key, sep)`: build the items list and
convert it to a dict. -/
def flattenJson (j : JObj) (parent sep : String) : List (String × String) :=
  pyDict (flatItemsF j parent sep)

mutual

/-- Number of leaf (non-dict) values below a value. -/
def leafCountV : JVal → Nat
  | JVal.leaf _ => 1
  | JVal.obj fields => leafCountF fields

/-- Number of leaf (non-dict) values in a nested dict. -/
def leafCountF : JObj → Nat
  | JObj.nil => 0
  | JObj.cons _ v rest => leafCountV v + leafCountF rest

end

mutual

/-- The raw flattened items of a value, with no dict conversion anywhere:
one pair per leaf, keyed by the underscore-joined composite key. -/
def rawItemsV (key sep : String) : JVal → List (String × String)
  | JVal.leaf s => [(key, s)]
  | JVal.obj fields => rawItemsF fields key sep

/-- The raw flattened items of a nested dict (no dict conversion). -/
def rawItemsF : JObj → String → String → List (String × String)
  | JObj.nil, _, _ => []
  | JObj.cons k v rest, parent, sep =>
      rawItemsV (mkKey parent sep k) sep v ++ rawItemsF rest parent sep

end

mutual

theorem rawItemsV_length : ∀ (key sep : String) (v : JVal),
    (rawItemsV key sep v).length = leafCountV v
  | _, _, JVal.leaf s => rfl
  | key, sep, JVal.obj fields => by
      simp only [rawItemsV, leafCountV]
      exact rawItemsF_length fields key sep

theorem rawItemsF_length : ∀ (j : JObj) (parent sep : String),
    (rawItemsF j parent sep).length = leafCountF j
  | JObj.nil, _, _ => rfl
  | JObj.cons k v rest, parent, sep => by
      simp only [rawItemsF, leafCountF, List.length_append]
      rw [rawItemsV_length (mkKey parent sep k) sep v, rawItemsF_length rest parent sep]

end

mutual

theorem flatItemsV_eq_raw : ∀ (key sep : String) (v : JVal),
    (keysOf (rawItemsV key sep v)).Nodup → flatItemsV key sep v = rawItemsV key sep v
  | _, _, JVal.leaf s, _ => rfl
  | key, sep, JVal.obj fields, h => by
      simp only [rawItemsV] at h
      simp only [flatItemsV, rawItemsV]
      rw [flatItemsF_eq_raw fields key sep h, pyDict_of_nodup _ h]

theorem flatItemsF_eq_raw : ∀ (j : JObj) (parent sep : String),
    (keysOf (rawItemsF j parent sep)).Nodup → flatItemsF j parent sep = rawItemsF j parent sep
  | JObj.nil, _, _, _ => rfl
  | JObj.cons k v rest, parent, sep, h => by
      simp only [rawItemsF, keysOf, List.map_append] at h
      simp only [flatItemsF, rawItemsF]
      rw [flatItemsV_eq_raw (mkKey parent sep k) sep v (List.Nodup.of_append_left h),
        flatItemsF_eq_raw rest parent sep (List.Nodup.of_append_right h)]

end

/-- A nested dict with a composite-key collision:
`{"a": {"b": "1"}, "a_b": "2"}`.  Both leaves flatten to the key `a_b`. -/
def exC1 : JObj :=
  JObj.cons "a" (JVal.obj (JObj.cons "b" (JVal.leaf "1") JObj.nil))
    (JObj.cons "a_b" (JVal.leaf "2") JObj.nil)

/-- A nested dict with no composite-key collision:
`{"a": {"b": "1"}, "c": "2"}`. -/
def exC1w : JObj :=
  JObj.cons "a" (JVal.obj (JObj.cons "b" (JVal.leaf "1") JObj.nil))
    (JObj.cons "c" (JVal.leaf "2") JObj.nil)

/-- C1 (counterexample): on the input `{"a": {"b": "1"}, "a_b": "2"}` the
flattened output of `_flatten_json` has 1 entry while the input has 2 leaf
values, so flattening is not lossless as stated: the final `dict(items)`
collapses the colliding composite key `a_b` (last write wins). -/
theorem flatten_not_lossless_on_collision :
    ¬ ((flattenJson exC1 "" "_").length = leafCountF exC1) := by decide

/-- C1 (amended): when the composite keys of all leaves are pairwise
distinct, `_flatten_json` is lossless: the output is exactly the list of
(composite key, leaf value) pairs in document order — every leaf appears
exactly once under its underscore-joined composite key — and its length
equals the number of leaf values of the nested input. -/
theorem flatten_lossless_of_nodup_keys (j : JObj)
    (h : (keysOf (rawItemsF j "" "_")).Nodup) :
    flattenJson j "" "_" = rawItemsF j "" "_" ∧
    (flattenJson j "" "_").length = leafCountF j := by
  have he : flatItemsF j "" "_" = rawItemsF j "" "_" := flatItemsF_eq_raw j "" "_" h
  refine ⟨?_, ?_⟩
  · rw [flattenJson, he, pyDict_of_nodup _ h]
  · rw [flattenJson, he, pyDict_of_nodup _ h, rawItemsF_length]

/-- C1 (witness): the amended losslessness theorem applied to the concrete
collision-free input `{"a": {"b": "1"}, "c": "2"}`. -/
theorem flatten_lossless_of_nodup_keys_witness :
    flattenJson exC1w "" "_" = rawItemsF exC1w "" "_" ∧
    (flattenJson exC1w "" "_").length = leafCountF exC1w :=
  flatten_lossless_of_nodup_keys exC1w (by decide)

/-! ## Content Extractor: section splitting (`_extract_sections`)

A paragraph of the parsed Word document is its text together with its
style name; the style name starting with `Heading` decides whether it is
a heading. -/

structure Para where
  text : String
  style : String
deriving DecidableEq

/-- Whether the paragraph style name starts with `Heading`. -/
def paraIsHeading (p : Para) : Bool := isPre "Heading".toList p.style.toList

/-- The section name derived from the stripped heading text: lower-case it
and replace each space with an underscore. -/
def sectionKey (t : String) : String :=
  ((lowerL t.toList).map (fun c => if c = ' ' then '_' else c)).asString

/-- Join the accumulated paragraph texts with newlines. -/
def joinLines (acc : List String) : String :=
  (joinSepL '\n' (acc.map String.toList)).asString

/-- Flush the accumulator into the section dict: when the accumulator is
non-empty, store its newline-join under the current section name. -/
def flushSection (secs : List (String × String)) (cur : String) (acc : List String) :
    List (String × String) :=
  if acc.isEmpty then secs else dictInsert secs cur (joinLines acc)

/-- The paragraph loop of `_extract_sections`, carrying the current section
name, the text accumulator and the section dict built so far. -/
def extractSectionsAux : List Para → String → List String → List (String × String) →
    List (String × String)
  | [], cur, acc, secs => flushSection secs cur acc
  | p :: ps, cur, acc, secs =>
      let t := pyStrip p.text
      if t = "" then extractSectionsAux ps cur acc secs
      else if paraIsHeading p then
        extractSectionsAux ps (sectionKey t) [] (flushSection secs cur acc)
      else extractSectionsAux ps cur (acc ++ [t]) secs

/-- Function `_extract_sections`: current section starts as `"header"` with an empty
accumulator and an empty dict. -/
def extractSections (paras : List Para) : List (String × String) :=
  extractSectionsAux paras "header" [] []

/-- The stripped texts of the heading paragraphs that open a section
(empty-after-strip paragraphs are skipped before the heading check). -/
def headingTexts (paras : List Para) : List String :=
  (paras.filter (fun p => (!(pyStrip p.text == "")) && paraIsHeading p)).map
    (fun p => pyStrip p.text)

/-- The section keys those headings produce. -/
def headingKeys (paras : List Para) : List String :=
  (headingTexts paras).map sectionKey

theorem keysOf_flushSection (secs : List (String × String)) (cur : String)
    (acc : List String) : keysOf (flushSection secs cur acc) ⊆ keysOf secs ++ [cur] := by
  unfold flushSection
  by_cases h : acc.isEmpty
  · simp only [h, if_true]
    exact List.subset_append_left _ _
  · simp only [h, Bool.false_eq_true, if_neg, if_false]
    exact keysOf_dictInsert_subset secs cur (joinLines acc)

theorem nodup_keysOf_flushSection (secs : List (String × String)) (cur : String)
    (acc : List String) (hd : (keysOf secs).Nodup) :
    (keysOf (flushSection secs cur acc)).Nodup := by
  unfold flushSection
  by_cases h : acc.isEmpty
  · simpa [h] using hd
  · simp only [h, Bool.false_eq_true, if_neg, if_false]
    exact nodup_keysOf_dictInsert secs cur (joinLines acc) hd

theorem headingKeys_cons_of_skip (p : Para) (ps : List Para)
    (h : pyStrip p.text = "") : headingKeys (p :: ps) = headingKeys ps := by
  simp [headingKeys, headingTexts, List.filter_cons, h]

theorem headingKeys_cons_of_heading (p : Para) (ps : List Para)
    (h : ¬ (pyStrip p.text = "")) (hh : paraIsHeading p = true) :
    headingKeys (p :: ps) = sectionKey (pyStrip p.text) :: headingKeys ps := by
  have hb : (pyStrip p.text == "") = false := beq_eq_false_iff_ne.mpr h
  simp [headingKeys, headingTexts, List.filter_cons, hb, hh]

theorem headingKeys_cons_of_body (p : Para) (ps : List Para)
    (hh : paraIsHeading p = false) : headingKeys (p :: ps) = headingKeys ps := by
  simp [headingKeys, headingTexts, List.filter_cons, hh]

theorem extractSectionsAux_keys : ∀ (ps : List Para) (cur : String) (acc : List String)
    (secs : List (String × String)), (keysOf secs).Nodup →
    (keysOf (extractSectionsAux ps cur acc secs)).Nodup ∧
    keysOf (extractSectionsAux ps cur acc secs) ⊆ keysOf secs ++ cur :: headingKeys ps := by
  intro ps
  induction ps with
  | nil =>
    intro cur acc secs hd
    refine ⟨nodup_keysOf_flushSection secs cur acc hd, ?_⟩
    intro x hx
    have := keysOf_flushSection secs cur acc hx
    simp only [List.mem_append, List.mem_singleton] at this
    simp only [List.mem_append, List.mem_cons]
    tauto
  | cons p ps ih =>
    intro cur acc secs hd
    by_cases ht : pyStrip p.text = ""
    · rw [headingKeys_cons_of_skip p ps ht]
      simp only [extractSectionsAux, ht, if_pos]
      exact ih cur acc secs hd
    · cases hh : paraIsHeading p
      · rw [headingKeys_cons_of_body p ps hh]
        simp only [extractSectionsAux, ht, if_neg, hh, Bool.false_eq_true, if_false]
        exact ih cur (acc ++ [pyStrip p.text]) secs hd
      · rw [headingKeys_cons_of_heading p ps ht hh]
        simp only [extractSectionsAux, ht, if_neg, hh, if_true]
        have hd2 := nodup_keysOf_flushSection secs cur acc hd
        obtain ⟨h1, h2⟩ := ih (sectionKey (pyStrip p.text)) [] (flushSection secs cur acc) hd2
        refine ⟨h1, ?_⟩
        intro x hx
        have hx2 := h2 hx
        simp only [List.mem_append, List.mem_cons] at hx2 ⊢
        rcases hx2 with hx2 | hx2 | hx2
        · have := keysOf_flushSection secs cur acc hx2
          simp only [List.mem_append, List.mem_singleton] at this
          tauto
        · tauto
        · tauto

theorem nodup_length_le_dedup {α : Type} [DecidableEq α] (l₁ l₂ : List α)
    (hn : l₁.Nodup) (hs : l₁ ⊆ l₂) : l₁.length ≤ l₂.dedup.length := by
  have hs2 : l₁ ⊆ l₂.dedup := fun x hx => List.mem_dedup.mpr (hs hx)
  exact List.Subperm.length_le (List.subperm_of_subset hn hs2)

theorem dedup_cons_le {α : Type} [DecidableEq α] (a : α) (l : List α) :
    (a :: l).dedup.length ≤ l.dedup.length + 1 := by
  by_cases h : a ∈ l
  · rw [List.dedup_cons_of_mem h]
    exact Nat.le_succ _
  · rw [List.dedup_cons_of_not_mem h]
    simp

theorem dedup_map_length_le {α β : Type} [DecidableEq α] [DecidableEq β]
    (f : α → β) (l : List α) : (l.map f).dedup.length ≤ l.dedup.length := by
  have hs : (l.map f).dedup ⊆ l.dedup.map f := by
    intro x hx
    have hx2 : x ∈ l.map f := List.mem_dedup.mp hx
    obtain ⟨a, ha, rfl⟩ := List.mem_map.mp hx2
    exact List.mem_map.mpr ⟨a, List.mem_dedup.mpr ha, rfl⟩
  have := List.Subperm.length_le (List.subperm_of_subset (List.nodup_dedup _) hs)
  simpa using this

/-- A document consisting of a single heading paragraph with no body text:
its trailing section has an empty accumulator and is never flushed. -/
def exC3 : List Para := [⟨"A", "Heading 1"⟩]

/-- C3 (counterexample): on a document whose only paragraph is the heading
`"A"`, `_extract_sections` returns an empty map (0 entries) while the
number of distinct heading texts is 1, so the entry count is neither the
distinct-heading count nor that count plus one: sections whose accumulated
body text is empty are never flushed, so entries can be missing. -/
theorem sections_count_not_exact :
    ¬ ((extractSections exC3).length = (headingTexts exC3).dedup.length ∨
       (extractSections exC3).length = (headingTexts exC3).dedup.length + 1) := by
  decide

/-- C3 (amended): for every document with at least one heading-tagged
paragraph, the number of entries of the SectionMap produced by
`_extract_sections` is at most the number of distinct heading texts
encountered plus one (the possible leading `header` section); equality can
fail because only non-empty accumulators are flushed and because distinct
heading texts may normalise to the same section key. -/
theorem sections_count_le (paras : List Para)
    (hheads : ∃ p ∈ paras, paraIsHeading p = true) :
    (extractSections paras).length ≤ (headingTexts paras).dedup.length + 1 := by
  obtain ⟨hn, hs⟩ := extractSectionsAux_keys paras "header" [] [] List.nodup_nil
  have hlen : (extractSections paras).length = (keysOf (extractSections paras)).length := by
    simp [keysOf]
  rw [hlen]
  have hs2 : keysOf (extractSections paras) ⊆ "header" :: headingKeys paras := by
    intro x hx
    have := hs hx
    simpa [keysOf] using this
  have h1 : (keysOf (extractSections paras)).length ≤
      ("header" :: headingKeys paras).dedup.length :=
    nodup_length_le_dedup _ _ hn hs2
  have h2 : ("header" :: headingKeys paras).dedup.length ≤
      (headingKeys paras).dedup.length + 1 := dedup_cons_le _ _
  have h3 : (headingKeys paras).dedup.length ≤ (headingTexts paras).dedup.length :=
    dedup_map_length_le sectionKey (headingTexts paras)
  omega

/-- C3 (witness): the amended bound applied to a concrete two-heading
document with body text. -/
theorem sections_count_le_witness :
    (extractSections [⟨"T", "Heading 1"⟩, ⟨"body", "Normal"⟩]).length ≤
    (headingTexts [⟨"T", "Heading 1"⟩, ⟨"body", "Normal"⟩]).dedup.length + 1 :=
  sections_count_le [⟨"T", "Heading 1"⟩, ⟨"body", "Normal"⟩] (by decide)

/-! ## Content Extractor: tables (`_extract_tables`)

A source table is a list of rows, each row a list of cell texts (this is
`[[cell.text for cell in row.cells] for row in table.rows]`; `python-docx`
yields the same number of cells for every row of a table grid).  Converting
a table builds a pandas DataFrame from `data[1:]` with `data[0]` as column
names and re-extracts it as records; on a table with zero rows, `data[0]`
raises and the `except` clause skips the table, as it does when the data
width does not match the header count. -/

structure TableRecord where
  headers : List String
  data : List (List (String × String))
  location : String
deriving DecidableEq

/-- Convert one table, `None` modelling the exception path of the
`try`/`except` around the conversion: an empty table (`data[0]` raises
`IndexError`) or a row-width mismatch with the headers (the DataFrame
constructor raises).  A nonempty uniform table yields headers `data[0]`
and one record per remaining row, the row zipped against the headers
(the DataFrame re-extracted as records, duplicate headers collapsing as
in a dict). -/
def tableToRecord? (rows : List (List String)) (loc : Nat) : Option TableRecord :=
  match rows with
  | [] => none
  | headers :: rest =>
      if rest.all (fun r => r.length == headers.length) then
        some ⟨headers, rest.map (fun r => pyDict (headers.zip r)),
          "Table " ++ toString loc⟩
      else none

/-- The table loop of `_extract_tables`: the location label is
`"Table " + str(len(tables) + 1)` where `tables` is the accepted list so
far. -/
def extractTablesAux : List (List (List String)) → List TableRecord → List TableRecord
  | [], acc => acc
  | t :: ts, acc =>
      match tableToRecord? t (acc.length + 1) with
      | some r => extractTablesAux ts (acc ++ [r])
      | none => extractTablesAux ts acc

/-- Function `_extract_tables`. -/
def extractTables (tables : List (List (List String))) : List TableRecord :=
  extractTablesAux tables []

/-- C2 (counterexample): a table with exactly one row — fewer than 2 rows —
is not skipped: `_extract_tables` on the single table `[["Name","Amount"]]`
returns one TableRecord (with the first row as headers and an empty data
list), not the empty list.  Only a zero-row table is skipped, because only
there does `data[0]` raise. -/
theorem one_row_table_not_skipped :
    ¬ (extractTables [[["Name", "Amount"]]] = []) := by decide

/-- Table extraction as the amended claim words it: walk every table of the
document in order, carrying the count `n` of tables accepted so far.  A
zero-row table contributes nothing; a table whose first row is `headers`
and whose remaining rows all match the header width contributes exactly
one record — the first row as headers, each subsequent row zipped against
those headers, location label counting accepted tables — and a
width-mismatched table contributes nothing. -/
def specTables : List (List (List String)) → Nat → List TableRecord
  | [], _ => []
  | t :: ts, n =>
      match t with
      | [] => specTables ts n
      | headers :: rest =>
          if rest.all (fun r => r.length == headers.length) then
            ⟨headers, rest.map (fun r => pyDict (headers.zip r)),
              "Table " ++ toString (n + 1)⟩ :: specTables ts (n + 1)
          else specTables ts n

theorem extractTablesAux_eq_specTables (ts : List (List (List String)))
    (acc : List TableRecord) :
    extractTablesAux ts acc = acc ++ specTables ts acc.length := by
  induction ts generalizing acc with
  | nil => simp [extractTablesAux, specTables]
  | cons t ts ih =>
    match t with
    | [] =>
      simp only [extractTablesAux, tableToRecord?, specTables]
      exact ih acc
    | headers :: rest =>
      cases hall : rest.all (fun r => r.length == headers.length)
      · simp only [extractTablesAux, tableToRecord?, hall, Bool.false_eq_true, if_false,
          specTables]
        exact ih acc
      · simp only [extractTablesAux, tableToRecord?, hall, if_true, specTables]
        rw [ih]
        simp

/-- C2 (amended): for every table in the document, in order, the first row
supplies the headers and each subsequent row is zipped against those
headers into a mapping, the location label counting accepted tables; a
table with zero rows contributes no TableRecord (only there does `data[0]`
raise), so a one-row table is not skipped: it contributes a TableRecord
whose data list is empty.  `_extract_tables` equals this per-table
description on every document. -/
theorem tables_first_row_headers (ts : List (List (List String))) :
    extractTables ts = specTables ts 0 :=
  extractTablesAux_eq_specTables ts []

/-- Sanity instance: a three-table document — a two-row table, a zero-row
table, a one-row table — yields the first-table record labelled
`Table 1`, nothing for the empty table, and an empty-data record labelled
`Table 2` for the one-row table. -/
theorem tables_three_table_instance :
    extractTables [[["Name", "Amount"], ["Alice", "100"]], [], [["Name", "Amount"]]] =
      [⟨["Name", "Amount"], [[("Name", "Alice"), ("Amount", "100")]], "Table 1"⟩,
       ⟨["Name", "Amount"], [], "Table 2"⟩] := by
  decide

/-! ## Content Extractor: signature detection (`_detect_signatures`)

The indicator patterns are literal strings (no regex metacharacters), so
`re.search(pattern, text)` is substring occurrence. -/

def signatureIndicators : List String :=
  ["signature", "signed by", "authorized signatory", "in witness whereof"]

/-- One paragraph matched against the indicator set (on its lower-cased
text), as in the location loop of `_detect_signatures`. -/
def paraMatches (p : Para) : Bool :=
  signatureIndicators.any (fun pat => occurs pat.toList (lowerL p.text.toList))

/-- The location loop: `for i, para in enumerate(doc.paragraphs)`, matching
paragraphs contribute the label `"Paragraph " + str(i + 1)`. -/
def sigLocations : Nat → List Para → List String
  | _, [] => []
  | i, p :: ps =>
      (if paraMatches p then ["Paragraph " ++ toString (i + 1)] else []) ++
      sigLocations (i + 1) ps

structure SignatureReport where
  has_signature_block : Bool
  signature_locations : List String
deriving DecidableEq

/-- Function `_detect_signatures`: the coarse flag tests the indicator set against
`"\n".join(p.text.lower() for p in paragraphs)`; the location list tests
each paragraph separately. -/
def detectSignatures (paras : List Para) : SignatureReport :=
  { has_signature_block :=
      signatureIndicators.any (fun pat =>
        occurs pat.toList (joinSepL '\n' (paras.map (fun p => lowerL p.text.toList)))),
    signature_locations := sigLocations 0 paras }

/-! ### A substring of a separator-joined list lies within one chunk -/

theorem isPre_split (sep : Char) (pat zs ws : List Char) (h : sep ∉ pat) :
    isPre pat (zs ++ sep :: ws) = isPre pat zs := by
  induction pat generalizing zs with
  | nil => rfl
  | cons c cs ih =>
    cases zs with
    | nil =>
      have hcs : (c == sep) = false :=
        beq_eq_false_iff_ne.mpr (fun hc => h (hc ▸ List.mem_cons_self c cs))
      simp [isPre, hcs]
    | cons z zs =>
      have hsub : sep ∉ cs := fun hm => h (List.mem_cons_of_mem c hm)
      simp only [List.cons_append, isPre, List.append_eq]
      rw [ih zs hsub]

theorem occurs_split (sep : Char) (pat xs ys : List Char) (h : sep ∉ pat) :
    occurs pat (xs ++ sep :: ys) = (occurs pat xs || occurs pat ys) := by
  induction xs with
  | nil =>
    simp only [List.nil_append, occurs]
    rw [show isPre pat (sep :: ys) = isPre pat [] from isPre_split sep pat [] ys h]
  | cons x xs ih =>
    simp only [List.cons_append, occurs, List.append_eq]
    have hp := isPre_split sep pat (x :: xs) ys h
    simp only [List.cons_append, List.append_eq] at hp
    rw [hp, ih, Bool.or_assoc]

theorem occurs_join (sep : Char) (pat : List Char) (h : sep ∉ pat) (hne : pat ≠ [])
    (chunks : List (List Char)) :
    occurs pat (joinSepL sep chunks) = chunks.any (fun c => occurs pat c) := by
  induction chunks with
  | nil =>
    cases pat with
    | nil => exact absurd rfl hne
    | cons c cs => rfl
  | cons c cs ih =>
    cases cs with
    | nil => simp [joinSepL]
    | cons c2 cs2 =>
      rw [show joinSepL sep (c :: c2 :: cs2) = c ++ sep :: joinSepL sep (c2 :: cs2) from rfl]
      rw [occurs_split sep pat c (joinSepL sep (c2 :: cs2)) h, ih]
      simp [List.any_cons]

theorem sigLocations_eq_nil_iff (paras : List Para) :
    ∀ i, sigLocations i paras = [] ↔ ∀ p ∈ paras, paraMatches p = false := by
  induction paras with
  | nil => simp [sigLocations]
  | cons p ps ih =>
    intro i
    cases hm : paraMatches p
    · simp only [sigLocations, hm, Bool.false_eq_true, if_neg, if_false, List.nil_append]
      rw [ih (i + 1)]
      constructor
      · intro hall q hq
        rcases List.mem_cons.mp hq with rfl | hq2
        · exact hm
        · exact hall q hq2
      · intro hall q hq
        exact hall q (List.mem_cons_of_mem p hq)
    · simp only [sigLocations, hm, if_true, List.cons_append]
      constructor
      · intro hc
        exact absurd hc (List.cons_ne_nil _ _)
      · intro hall
        have := hall p (List.mem_cons_self p ps)
        rw [hm] at this
        exact Bool.noConfusion this

/-- C10: for every paragraph sequence, the coarse flag and the per-paragraph
location list of `_detect_signatures` agree: `has_signature_block` is true
iff `signature_locations` is non-empty.  No indicator pattern contains a
newline, so a match in the newline-joined document text always lies within
a single paragraph. -/
theorem signature_flag_iff_locations (paras : List Para) :
    (detectSignatures paras).has_signature_block = true ↔
    (detectSignatures paras).signature_locations ≠ [] := by
  have hpat : ∀ pat ∈ signatureIndicators, '\n' ∉ pat.toList ∧ pat.toList ≠ [] := by decide
  simp only [detectSignatures]
  constructor
  · intro h
    obtain ⟨pat, hmem, hocc⟩ := List.any_eq_true.mp h
    obtain ⟨hnl, hnn⟩ := hpat pat hmem
    rw [occurs_join '\n' pat.toList hnl hnn] at hocc
    obtain ⟨c, hc, hcc⟩ := List.any_eq_true.mp hocc
    obtain ⟨p, hp, rfl⟩ := List.mem_map.mp hc
    intro hnil
    have hmf : paraMatches p = false :=
      ((sigLocations_eq_nil_iff paras 0).mp hnil) p hp
    have hmt : paraMatches p = true :=
      List.any_eq_true.mpr ⟨pat, hmem, hcc⟩
    rw [hmf] at hmt
    exact Bool.noConfusion hmt
  · intro h
    rcases hp : paras.all (fun p => !paraMatches p) with _ | _
    · have ⟨p, hpm, hpt⟩ : ∃ p ∈ paras, paraMatches p = true := by
        rcases List.all_eq_false.mp hp with ⟨p, hpm, hpv⟩
        exact ⟨p, hpm, by
          cases hv : paraMatches p
          · rw [hv] at hpv; exact absurd rfl hpv
          · rfl⟩
      obtain ⟨pat, hmem, hocc⟩ := List.any_eq_true.mp hpt
      obtain ⟨hnl, hnn⟩ := hpat pat hmem
      refine List.any_eq_true.mpr ⟨pat, hmem, ?_⟩
      rw [occurs_join '\n' pat.toList hnl hnn]
      exact List.any_eq_true.mpr ⟨lowerL p.text.toList, List.mem_map.mpr ⟨p, hpm, rfl⟩, hocc⟩
    · exfalso
      apply h
      rw [sigLocations_eq_nil_iff paras 0]
      intro p hpm
      have := List.all_eq_true.mp hp p hpm
      cases hv : paraMatches p
      · rfl
      · rw [hv] at this; exact absurd this (by decide)

/-! ## Classifier (`_classify_document`) -/

inductive DocumentType where
  | lease
  | loan
  | msa
deriving DecidableEq

/-- The per-type keyword lists of the classification rules, in the
enumeration (dict insertion) order LEASE, LOAN, MSA. -/
def keywordsFor : DocumentType → List String
  | DocumentType.lease => ["lease", "tenant", "landlord", "rent", "property"]
  | DocumentType.loan => ["loan", "borrower", "lender", "interest rate", "principal"]
  | DocumentType.msa => ["services", "statement of work", "sla", "deliverables"]

/-- Space-join all section values and lower-case the result. -/
def sectionsText (sections : List (String × String)) : List Char :=
  lowerL (joinSepL ' ' (sections.map (fun kv => kv.2.toList)))

/-- The score of one document type:
`sum(1 for keyword in keywords if keyword in text)`. -/
def typeScore (dt : DocumentType) (sections : List (String × String)) : Nat :=
  ((keywordsFor dt).filter (fun k => occurs k.toList (sectionsText sections))).length

/-- Python `max(items, key=lambda x: x[1])` over a non-empty item list:
iterate, replacing the current best only on a strictly greater key, so the
first maximal item wins. -/
def pyMax : DocumentType × Nat → List (DocumentType × Nat) → DocumentType × Nat
  | best, [] => best
  | best, x :: xs => pyMax (if x.2 > best.2 then x else best) xs

/-- Function `_classify_document`: score each type and return the one with the
highest score, iterating the score dict in insertion order. -/
def classifyDocument (sections : List (String × String)) : DocumentType :=
  (pyMax (DocumentType.lease, typeScore DocumentType.lease sections)
    [(DocumentType.loan, typeScore DocumentType.loan sections),
     (DocumentType.msa, typeScore DocumentType.msa sections)]).1

/-- The classifier as the specification words it: the document type whose
keyword list has the most members occurring as substrings of the
lower-cased space-joined section text, ties broken by the enumeration
order LEASE, LOAN, MSA (first maximal type). -/
def specClassify (sections : List (String × String)) : DocumentType :=
  let sl := typeScore DocumentType.lease sections
  let so := typeScore DocumentType.loan sections
  let sm := typeScore DocumentType.msa sections
  if sl ≥ so ∧ sl ≥ sm then DocumentType.lease
  else if so ≥ sm then DocumentType.loan
  else DocumentType.msa

/-- C4: `_classify_document` returns the first type in enumeration order
LEASE, LOAN, MSA whose keyword-occurrence score is maximal; in particular
a document with zero matches for every type (all scores 0, a three-way
tie) is classified LEASE. -/
theorem pyMax_two (t0 t1 t2 : DocumentType) (a b c : Nat) :
    (pyMax (t0, a) [(t1, b), (t2, c)]).1 =
    if a ≥ b ∧ a ≥ c then t0 else if b ≥ c then t1 else t2 := by
  by_cases h1 : b > a
  · by_cases h2 : c > b
    · have e1 : ¬ (a ≥ b ∧ a ≥ c) := by omega
      have e2 : ¬ (b ≥ c) := by omega
      simp [pyMax, h1, h2, e1, e2]
    · have e1 : ¬ (a ≥ b ∧ a ≥ c) := by omega
      have e2 : b ≥ c := by omega
      simp [pyMax, h1, h2, e1, e2]
  · by_cases h2 : c > a
    · have e1 : ¬ (a ≥ b ∧ a ≥ c) := by omega
      have e2 : ¬ (b ≥ c) := by omega
      simp [pyMax, h1, h2, e1, e2]
    · have e1 : a ≥ b ∧ a ≥ c := by omega
      simp [pyMax, h1, h2, e1]

theorem classify_eq_first_argmax (sections : List (String × String)) :
    classifyDocument sections = specClassify sections := by
  unfold classifyDocument
  rw [pyMax_two]
  rfl

/-- Sanity instance: an empty SectionMap scores 0 for every type and is
classified LEASE. -/
theorem classify_empty_is_lease :
    typeScore DocumentType.lease [] = 0 ∧ typeScore DocumentType.loan [] = 0 ∧
    typeScore DocumentType.msa [] = 0 ∧ classifyDocument [] = DocumentType.lease := by
  decide

/-! ## The C6 scenario -/

/-- The scenario paragraph sequence: heading `LEASE AGREEMENT`, body
`This is a lease between landlord and tenant.`, heading `RENT`, body
`Rent is $1000/month.`. -/
def scenarioParas : List Para :=
  [⟨"LEASE AGREEMENT", "Heading 1"⟩,
   ⟨"This is a lease between landlord and tenant.", "Normal"⟩,
   ⟨"RENT", "Heading 1"⟩,
   ⟨"Rent is $1000/month.", "Normal"⟩]

/-- C6 (counterexample): on the scenario document, the LEASE keyword score
is 4 (`lease`, `tenant`, `landlord`, `rent` occur; `property` does not),
not 5 as the claim states. -/
theorem scenario_lease_score_not_five :
    ¬ (typeScore DocumentType.lease (extractSections scenarioParas) = 5) := by
  decide

/-- C6 (amended): section extraction on the scenario yields exactly
`{lease_agreement: "This is a lease between landlord and tenant.",
rent: "Rent is $1000/month."}` with no `header` entry (no text precedes the
first heading), and classification on that SectionMap yields LEASE with 4
keyword hits versus 0 for LOAN and 0 for MSA. -/
theorem scenario_sections_and_classification :
    extractSections scenarioParas =
      [("lease_agreement", "This is a lease between landlord and tenant."),
       ("rent", "Rent is $1000/month.")] ∧
    typeScore DocumentType.lease (extractSections scenarioParas) = 4 ∧
    typeScore DocumentType.loan (extractSections scenarioParas) = 0 ∧
    typeScore DocumentType.msa (extractSections scenarioParas) = 0 ∧
    classifyDocument (extractSections scenarioParas) = DocumentType.lease := by
  decide

/-! ## Validator (`validate_document`) -/

inductive ValidationStatus where
  | passed
  | failed
  | warning
deriving DecidableEq

/-- The extraction result handed to `validate_document`: the SectionMap,
the SignatureReport, and the two optional dates.  A `some` date models a
date key being present in `doc_data`; dates are compared by `<` on their
timeline, modelled as `Int`. -/
structure DocData where
  sections : List (String × String)
  signatures : SignatureReport
  effective_date : Option Int
  execution_date : Option Int

/-- Function `validate_document`: the `required_sections` rule, the `signatures`
rule, and — only when both dates are present — the `date_order` rule. -/
def validateDocument (d : DocData) : List (String × ValidationStatus) :=
  [("required_sections",
      if ["header", "parties", "terms"].all (fun s => hasKey d.sections s)
      then ValidationStatus.passed else ValidationStatus.failed),
   ("signatures",
      if d.signatures.has_signature_block
      then ValidationStatus.passed else ValidationStatus.warning)] ++
  (match d.effective_date, d.execution_date with
   | some e, some x =>
       [("date_order", if e < x then ValidationStatus.warning else ValidationStatus.passed)]
   | _, _ => [])

/-- C5: for every extraction result, the `required_sections` rule is PASSED
iff the keys `header`, `parties` and `terms` are all present in the
SectionMap, and FAILED otherwise. -/
theorem required_sections_rule (d : DocData) :
    List.lookup "required_sections" (validateDocument d) =
    some (if hasKey d.sections "header" = true ∧ hasKey d.sections "parties" = true ∧
            hasKey d.sections "terms" = true
          then ValidationStatus.passed else ValidationStatus.failed) := by
  have hstep : List.lookup "required_sections" (validateDocument d) =
      some (if ["header", "parties", "terms"].all (fun s => hasKey d.sections s)
            then ValidationStatus.passed else ValidationStatus.failed) := by
    simp [validateDocument, List.lookup]
  rw [hstep]
  by_cases h1 : hasKey d.sections "header" = true
  · by_cases h2 : hasKey d.sections "parties" = true
    · by_cases h3 : hasKey d.sections "terms" = true
      · simp [h1, h2, h3]
      · simp [h1, h2, h3]
    · simp [h1, h2]
  · simp [h1]

/-- C9: the validation result contains a `date_order` entry iff both
`effective_date` and `execution_date` are supplied; when both are present
its status is WARNING if the effective date strictly precedes the
execution date and PASSED otherwise. -/
theorem date_order_rule (d : DocData) :
    ((List.lookup "date_order" (validateDocument d)).isSome ↔
      d.effective_date.isSome ∧ d.execution_date.isSome) ∧
    (∀ e x : Int, d.effective_date = some e → d.execution_date = some x →
      List.lookup "date_order" (validateDocument d) =
        some (if e < x then ValidationStatus.warning else ValidationStatus.passed)) := by
  obtain ⟨secs, sigs, eff, exec⟩ := d
  constructor
  · cases eff <;> cases exec <;> simp [validateDocument, List.lookup]
  · intro e x he hx
    cases eff <;> cases exec <;> simp_all [validateDocument, List.lookup]

/-- C9 (witness): the `date_order` rule evaluated on a concrete input with
both dates supplied and the effective date before the execution date. -/
theorem date_order_rule_witness :
    ((List.lookup "date_order"
        (validateDocument ⟨[], ⟨false, []⟩, some 3, some 7⟩)).isSome ↔
      (some (3 : Int)).isSome ∧ (some (7 : Int)).isSome) ∧
    (∀ e x : Int, some (3 : Int) = some e → some (7 : Int) = some x →
      List.lookup "date_order" (validateDocument ⟨[], ⟨false, []⟩, some 3, some 7⟩) =
        some (if e < x then ValidationStatus.warning else ValidationStatus.passed)) :=
  date_order_rule ⟨[], ⟨false, []⟩, some 3, some 7⟩

/-! ## File validation (`validate_file`) -/

/-- Function `validate_file`: reject when the lower-cased filename does not end in
`.doc` or `.docx`, then reject when the content exceeds 10 MB; otherwise
accept.  `Except.error` models the raised `ValueError`. -/
def validateFile (filename : String) (content : List Nat) : Except String Unit :=
  if !(endsWithL (lowerL filename.toList) ".doc".toList ||
       endsWithL (lowerL filename.toList) ".docx".toList) then
    Except.error "Only Word documents (.doc, .docx) are supported"
  else if content.length > 10 * 1024 * 1024 then
    Except.error "File size exceeds maximum limit of 10MB"
  else
    Except.ok ()

/-- C8: `validate_file` accepts iff the lower-cased filename ends in `.doc`
or `.docx` and the content is at most 10 MB (10*1024*1024 bytes); in every
other case it raises.  Accepted files are passed through unchanged (the
function returns nothing). -/
theorem validate_file_ok_iff (filename : String) (content : List Nat) :
    validateFile filename content = Except.ok () ↔
    ((endsWithL (lowerL filename.toList) ".doc".toList = true ∨
      endsWithL (lowerL filename.toList) ".docx".toList = true) ∧
     content.length ≤ 10 * 1024 * 1024) := by
  unfold validateFile
  by_cases h1 : (endsWithL (lowerL filename.toList) ".doc".toList ||
      endsWithL (lowerL filename.toList) ".docx".toList) = true
  · by_cases h2 : content.length > 10 * 1024 * 1024
    · simp only [h1, Bool.not_true, Bool.false_eq_true, if_false, if_pos h2]
      constructor
      · intro hc
        exact Except.noConfusion hc
      · intro ⟨_, hle⟩
        omega
    · simp only [h1, Bool.not_true, Bool.false_eq_true, if_false, if_neg h2]
      rw [Bool.or_eq_true] at h1
      constructor
      · intro _
        exact ⟨h1, by omega⟩
      · intro _
        trivial
  · have h1f : (endsWithL (lowerL filename.toList) ".doc".toList ||
        endsWithL (lowerL filename.toList) ".docx".toList) = false := by
      cases hb : (endsWithL (lowerL filename.toList) ".doc".toList ||
          endsWithL (lowerL filename.toList) ".docx".toList)
      · rfl
      · exact absurd hb h1
    simp only [h1f, Bool.not_false, if_true]
    constructor
    · intro hc
      exact Except.noConfusion hc
    · intro ⟨hor, _⟩
      exact absurd (h1 (by simp only [Bool.or_eq_true]; exact hor)) not_false

/-! ## Identity/Hashing (`_calculate_hash`, `_generate_document_id`)

`hashlib.sha256` is modelled by a full executable SHA-256 over byte lists
(FIPS 180-4), with 32-bit words as `Nat` reduced modulo `2^32`.  The
implementation is validated below against the standard test vectors for
the empty message and `"abc"`. -/

/-- Truncation to a 32-bit word. -/
def w32 (n : Nat) : Nat := n % 4294967296

/-- Right rotation of a 32-bit word. -/
def rotr (n x : Nat) : Nat := w32 ((x >>> n) ||| (x <<< (32 - n)))

def sumA (x : Nat) : Nat := (rotr 2 x) ^^^ (rotr 13 x) ^^^ (rotr 22 x)

def sumE (x : Nat) : Nat := (rotr 6 x) ^^^ (rotr 11 x) ^^^ (rotr 25 x)

def sigA (x : Nat) : Nat := (rotr 7 x) ^^^ (rotr 18 x) ^^^ (x >>> 3)

def sigE (x : Nat) : Nat := (rotr 17 x) ^^^ (rotr 19 x) ^^^ (x >>> 10)

/-- The 64 SHA-256 round constants, written in decimal. -/
def K256 : List Nat :=
  [1116352408, 1899447441, 3049323471, 3921009573, 961987163,
   1508970993, 2453635748, 2870763221, 3624381080, 310598401,
   607225278, 1426881987, 1925078388, 2162078206, 2614888103,
   3248222580, 3835390401, 4022224774, 264347078, 604807628,
   770255983, 1249150122, 1555081692, 1996064986, 2554220882,
   2821834349, 2952996808, 3210313671, 3336571891, 3584528711,
   113926993, 338241895, 666307205, 773529912, 1294757372,
   1396182291, 1695183700, 1986661051, 2177026350, 2456956037,
   2730485921, 2820302411, 3259730800, 3345764771, 3516065817,
   3600352804, 4094571909, 275423344, 430227734, 506948616,
   659060556, 883997877, 958139571, 1322822218, 1537002063,
   1747873779, 1955562222, 2024104815, 2227730452, 2361852424,
   2428436474, 2756734187, 3204031479, 3329325298]

/-- The eight SHA-256 initial chaining words, written in decimal. -/
def initH : List Nat :=
  [1779033703, 3144134277, 1013904242, 2773480762,
   1359893119, 2600822924, 528734635, 1541459225]

/-- The 64-bit big-endian byte encoding of the message bit length. -/
def lenBytes64 (n : Nat) : List Nat :=
  [(n >>> 56) % 256, (n >>> 48) % 256, (n >>> 40) % 256, (n >>> 32) % 256,
   (n >>> 24) % 256, (n >>> 16) % 256, (n >>> 8) % 256, n % 256]

/-- SHA-256 padding: append `0x80`, zero bytes up to 56 mod 64, then the
bit length as 8 big-endian bytes. -/
def sha256pad (msg : List Nat) : List Nat :=
  msg ++ 128 :: List.replicate ((119 - msg.length % 64) % 64) 0 ++
    lenBytes64 (msg.length * 8)

/-- Group bytes into big-endian 32-bit words. -/
def toWords : List Nat → List Nat
  | a :: b :: c :: d :: rest => (a * 16777216 + b * 65536 + c * 256 + d) :: toWords rest
  | _ => []

/-- Group the word stream into 16-word blocks. -/
def chunks16 : List Nat → List (List Nat)
  | w0 :: w1 :: w2 :: w3 :: w4 :: w5 :: w6 :: w7 ::
    w8 :: w9 :: w10 :: w11 :: w12 :: w13 :: w14 :: w15 :: rest =>
      [w0, w1, w2, w3, w4, w5, w6, w7, w8, w9, w10, w11, w12, w13, w14, w15] ::
        chunks16 rest
  | _ => []

/-- Extend a 16-word block to the 64-word message schedule by appending
`k` further words. -/
def buildSchedule : Nat → List Nat → List Nat
  | 0, w => w
  | k + 1, w =>
      let t := w.length
      let next := w32 (sigE (w.getD (t - 2) 0) + w.getD (t - 7) 0 +
        sigA (w.getD (t - 15) 0) + w.getD (t - 16) 0)
      buildSchedule k (w ++ [next])

/-- One round of the SHA-256 compression function on the 8-word working
state, consuming one (schedule word, round constant) pair. -/
def compressStep (st : List Nat) (wk : Nat × Nat) : List Nat :=
  match st with
  | [a, b, c, d, e, f, g, h] =>
      let S1 := sumE e
      let ch := (e &&& f) ^^^ ((4294967295 - e) &&& g)
      let temp1 := w32 (h + S1 + ch + wk.2 + wk.1)
      let S0 := sumA a
      let maj := (a &&& b) ^^^ (a &&& c) ^^^ (b &&& c)
      let temp2 := w32 (S0 + maj)
      [w32 (temp1 + temp2), a, b, c, w32 (d + temp1), e, f, g]
  | _ => st

/-- Process one 16-word block: run 64 compression rounds and add the
result into the chaining value. -/
def processBlock (h : List Nat) (block : List Nat) : List Nat :=
  let ws := buildSchedule 48 block
  let st := (ws.zip K256).foldl compressStep h
  (h.zip st).map (fun p => w32 (p.1 + p.2))

/-- The big-endian 4-byte encoding of a 32-bit word. -/
def wordBytes (w : Nat) : List Nat :=
  [(w >>> 24) % 256, (w >>> 16) % 256, (w >>> 8) % 256, w % 256]

/-- SHA-256 of a byte list, as the 32-byte digest. -/
def sha256 (msg : List Nat) : List Nat :=
  (((chunks16 (toWords (sha256pad msg))).foldl processBlock initH).map wordBytes).flatten

/-- A nibble as a lower-case hex character. -/
def hexDigit (n : Nat) : Char :=
  if n < 10 then Char.ofNat (48 + n) else Char.ofNat (87 + n)

/-- The lower-case hex encoding of a byte list (`hexdigest()`). -/
def bytesToHex (bytes : List Nat) : String :=
  ((bytes.map (fun b => [hexDigit (b / 16), hexDigit (b % 16)])).flatten).asString

/-- Function `_calculate_hash`: the hex digest of the SHA-256 of the bytes. -/
def calculateHash (content : List Nat) : String := bytesToHex (sha256 content)

/-- Function `_generate_document_id`: the first 12 characters of the hex
digest of the SHA-256 of the bytes. -/
def generateDocumentId (content : List Nat) : String :=
  ((bytesToHex (sha256 content)).toList.take 12).asString

/-- Validation of the SHA-256 model against the FIPS 180-4 test vector for
the empty message. -/
theorem sha256_empty_vector :
    calculateHash [] = "e3b0c44298fc1c149afbf4c8996fb92427ae41e4649b934ca495991b7852b855" := by
  decide

/-- Validation of the SHA-256 model against the FIPS 180-4 test vector for
the three-byte message `"abc"`. -/
theorem sha256_abc_vector :
    calculateHash [97, 98, 99] =
      "ba7816bf8f01cfea414140de5dae2223b00361a396177a9cb410ff61f20015ad" := by
  decide

/-- C7: for every byte sequence, the content hash is the hex-encoded
SHA-256 digest of the bytes, the document identifier is the first 12 hex
characters of that same digest, and two identical byte sequences yield
identical hash and identifier — both functions take only the content, so
neither depends on filename or upload time. -/
theorem hash_and_id_deterministic (content c2 : List Nat) :
    calculateHash content = bytesToHex (sha256 content) ∧
    generateDocumentId content = ((calculateHash content).toList.take 12).asString ∧
    (content = c2 →
      calculateHash content = calculateHash c2 ∧
      generateDocumentId content = generateDocumentId c2) := by
  refine ⟨rfl, rfl, ?_⟩
  intro h
  rw [h]
  exact ⟨rfl, rfl⟩

/-- C7 (witness): the hash/identifier relation evaluated on the concrete
byte sequence `"abc"`. -/
theorem hash_and_id_deterministic_witness :
    calculateHash [97, 98, 99] = bytesToHex (sha256 [97, 98, 99]) ∧
    generateDocumentId [97, 98, 99] =
      ((calculateHash [97, 98, 99]).toList.take 12).asString ∧
    ([97, 98, 99] = [97, 98, 99] →
      calculateHash [97, 98, 99] = calculateHash [97, 98, 99] ∧
      generateDocumentId [97, 98, 99] = generateDocumentId [97, 98, 99]) :=
  hash_and_id_deterministic [97, 98, 99] [97, 98, 99]

end DocProc
